import Mathlib

/-!
# Verification of the YugabyteDB Docker proxy server

A shallow embedding of the core logic of `scripts/proxy-server.js`:
the HTTP response parser, the HTML/`Location` rewriters, the container
lookup cache, the request router, and the response-write discipline of
the proxy handler.  Byte buffers and JavaScript "binary" strings are both
modelled as `List Char` (the `toString("binary")` conversion in the source
is a bijection between bytes and code points 0..255, so one list models
both views).  All definitions follow the JavaScript source; theorems at
the end settle the specification claims.
-/

set_option maxHeartbeats 1000000

/-- The double-quote character, written by code point to keep literals simple. -/
def dq : Char := Char.ofNat 34

/-- The single-quote character. -/
def sqc : Char := Char.ofNat 39

/-- The backslash character. -/
def bsl : Char := Char.ofNat 92

/-- JavaScript `\s` (whitespace) character class, used by `String.prototype.trim`
and by `\s*` in the rewrite regexes. -/
def isWsJS (c : Char) : Bool :=
  c.toNat ∈ [9, 10, 11, 12, 13, 32, 160, 0x1680, 0x2000, 0x2001, 0x2002, 0x2003,
    0x2004, 0x2005, 0x2006, 0x2007, 0x2008, 0x2009, 0x200A, 0x2028, 0x2029,
    0x202F, 0x205F, 0x3000, 0xFEFF]

/-- `String.prototype.trim`: strip JS whitespace from both ends. -/
def trimJS (s : List Char) : List Char :=
  ((s.dropWhile isWsJS).reverse.dropWhile isWsJS).reverse

/-- `haystack.indexOf(needle)` for strings: index of the first occurrence of
`pat` as a contiguous substring, `none` when absent (JS returns `-1`). -/
def findSub (pat : List Char) (s : List Char) : Option Nat :=
  if pat.isPrefixOf s then some 0
  else
    match s with
    | [] => none
    | _ :: tl => (findSub pat tl).map (· + 1)

/-- `"\r\n\r\n"` — the CRLFCRLF header/body boundary. -/
def CRLF2 : List Char := "\r\n\r\n".data

/-- `"\n\n"` — the LFLF header/body boundary. -/
def LF2 : List Char := "\n\n".data

/-- Boundary detection of `parseHttpResponse` (proxy-server.js lines 124-135):
the first CRLFCRLF or LFLF, whichever occurs first; returns the boundary index
together with the boundary pattern itself. -/
def stage1 (s : List Char) : Option (Nat × List Char) :=
  match findSub CRLF2 s, findSub LF2 s with
  | some c, some l => if c ≤ l then some (c, CRLF2) else some (l, LF2)
  | some c, none => some (c, CRLF2)
  | none, some l => some (l, LF2)
  | none, none => none

/-- The `while (true)` loop of `parseHttpResponse` (lines 142-164) that skips
informational (1xx) responses.  State: current header block, current boundary,
current body start.  `fuel` bounds the number of iterations; the theorems show
`data.length` fuel always reaches the fixed point. -/
def skipLoopF (data : List Char) : Nat → List Char × List Char × Nat → List Char × List Char × Nat
  | 0, acc => acc
  | fuel + 1, (h, b, s) =>
    let after := data.drop s
    if "HTTP/".data.isPrefixOf after then
      match stage1 after with
      | some (ne, bnd) => skipLoopF data fuel (after.take ne, bnd, s + ne + bnd.length)
      | none => (h, b, s)
    else (h, b, s)

/-- Split on a (non-empty) separator `c :: cs`, as `String.prototype.split`.
`fuel`-driven structural recursion; callers pass `s.length` fuel, which always
suffices because each step consumes at least one character. -/
def splitOnSepF (c : Char) (cs : List Char) : Nat → List Char → List (List Char)
  | 0, s => [s]
  | fuel + 1, s =>
    match findSub (c :: cs) s with
    | none => [s]
    | some i => s.take i :: splitOnSepF c cs fuel (s.drop (i + 1 + cs.length))

/-- `headersStr.split(sep)` (line 168). -/
def splitOnSep (c : Char) (cs : List Char) (s : List Char) : List (List Char) :=
  splitOnSepF c cs s.length s

/-- `parseInt` on a list of decimal digits. -/
def digitsToNat (ds : List Char) : Nat :=
  ds.foldl (fun n c => n * 10 + (c.toNat - 48)) 0

/-- Try the regex `HTTP\/[\d.]+ (\d+)` anchored at the head of `s`
(one candidate position of the unanchored `String.prototype.match`). -/
def statusAt (s : List Char) : Option Nat :=
  if "HTTP/".data.isPrefixOf s then
    let r := s.drop 5
    let run := r.takeWhile fun c => c.isDigit || c = '.'
    if run = [] then none
    else
      match r.drop run.length with
      | ' ' :: r2 =>
        let ds := r2.takeWhile Char.isDigit
        if ds = [] then none else some (digitsToNat ds)
      | _ => none
  else none

/-- `line.match(/HTTP\/[\d.]+ (\d+)/)` (line 169): first position where the
status-line regex matches. -/
def statusSearch : List Char → Option Nat
  | [] => none
  | c :: cs =>
    match statusAt (c :: cs) with
    | some n => some n
    | none => statusSearch cs

/-- Insert into a JS-object-like association list: overwrite in place on a
duplicate key (last write wins), append otherwise (lines 172-178). -/
def upsert (k v : List Char) : List (List Char × List Char) → List (List Char × List Char)
  | [] => [(k, v)]
  | (k', v') :: t => if k' = k then (k, v) :: t else (k', v') :: upsert k v t

/-- One header line (lines 173-177): split on the first `:` when its index is
positive, trim name and value. -/
def headerLineStep (acc : List (List Char × List Char)) (line : List Char) :
    List (List Char × List Char) :=
  match findSub [':'] line with
  | some ci =>
    if 0 < ci then upsert (trimJS (line.take ci)) (trimJS (line.drop (ci + 1))) acc else acc
  | none => acc

/-- The result record of `parseHttpResponse`, extended with the final header
block, the final boundary and the final body start so that the split itself
can be reasoned about. -/
structure ParsedEx where
  statusCode : Nat
  headers : List (List Char × List Char)
  body : List Char
  headerBlock : List Char
  boundary : List Char
  bodyStart : Nat
deriving DecidableEq, Repr

/-- `parseHttpResponse` (lines 121-181), keeping the detected header block and
boundary in the result. -/
def parseHttpResponseEx (data : List Char) : ParsedEx :=
  match stage1 data with
  | none => ⟨200, [], data, [], [], 0⟩
  | some (he, bnd) =>
    let r := skipLoopF data data.length (data.take he, bnd, he + bnd.length)
    let headersStr := r.1
    let body := data.drop r.2.2
    let lines :=
      if (findSub "\r\n".data headersStr).isSome then splitOnSep '\r' ['\n'] headersStr
      else splitOnSep '\n' [] headersStr
    let statusCode :=
      match lines.head? with
      | some l0 => (statusSearch l0).getD 200
      | none => 200
    let headers := (lines.drop 1).foldl headerLineStep []
    ⟨statusCode, headers, body, headersStr, r.2.1, r.2.2⟩

/-- The record actually returned by the source function. -/
structure Parsed where
  statusCode : Nat
  headers : List (List Char × List Char)
  body : List Char
deriving DecidableEq, Repr

/-- `parseHttpResponse(data)` as returned to callers. -/
def parseHttpResponse (data : List Char) : Parsed :=
  let e := parseHttpResponseEx data
  ⟨e.statusCode, e.headers, e.body⟩

/-- The character class `[a-zA-Z0-9_-]` of the internal-address regexes. -/
def isWordChar (c : Char) : Bool :=
  c.isAlpha || c.isDigit || c = '_' || c = '-'

/-- The `(https?:)?` optional scheme at a candidate match position. -/
def schemeOf (s : List Char) : List Char :=
  if "https:".data.isPrefixOf s then "https:".data
  else if "http:".data.isPrefixOf s then "http:".data
  else []

/-- Backtracking residue of `yb-[a-zA-Z0-9_-]+-node\d+` against the maximal
word-character run `w` that follows `"yb-"`: the run must decompose as
`mid ++ "-node" ++ digits` with `mid` non-empty and the digits extending to
the end of the run (the regex continues with `:`, which is not a word
character, so the digit group must end exactly where the run ends). -/
def hostTailOk (w : List Char) : Bool :=
  let dsRev := w.reverse.takeWhile Char.isDigit
  !dsRev.isEmpty &&
    (let w' := w.take (w.length - dsRev.length)
     "-node".data.isSuffixOf w' && decide (5 < w'.length))

/-- Anchored match of `(https?:)?\/\/(yb-[a-zA-Z0-9_-]+-node\d+:\d+)` at the
head of `s` (used by both `rewriteHtml` line 189 and `rewriteLocation`
line 197).  Returns the matched scheme and the captured `host:port` group;
the whole match consumes `scheme ++ "//" ++ hostport`. -/
def matchAbs (s : List Char) : Option (List Char × List Char) :=
  let sch := schemeOf s
  let s1 := s.drop sch.length
  if "//yb-".data.isPrefixOf s1 then
    let s2 := s1.drop 5
    let w := s2.takeWhile isWordChar
    if hostTailOk w then
      match s2.drop w.length with
      | c :: r2 =>
        if c = ':' then
          let ps := r2.takeWhile Char.isDigit
          if ps = [] then none else some (sch, ("yb-".data ++ w ++ [':']) ++ ps)
        else none
      | [] => none
    else none
  else none

/-- Global-regex replacement driver: walk the text; where the anchored matcher
fires (consuming `n ≥ 1` characters and yielding a replacement chunk), emit the
chunk and resume after the match, otherwise copy one character.  `fuel` is the
remaining length; callers pass `l.length`. -/
def replaceScanF (m : List Char → Option (Nat × List Char)) : Nat → List Char → List Char
  | _, [] => []
  | 0, l => l
  | fuel + 1, c :: cs =>
    match m (c :: cs) with
    | some (n + 1, out) => out ++ replaceScanF m fuel (cs.drop n)
    | some (0, _) => c :: replaceScanF m fuel cs
    | none => c :: replaceScanF m fuel cs

/-- `text.replace(regex, f)` with a global regex. -/
def replaceScan (m : List Char → Option (Nat × List Char)) (l : List Char) : List Char :=
  replaceScanF m l.length l

/-- Matcher/replacement pair for rule (a) of `rewriteHtml` (lines 188-191):
every absolute or scheme-relative internal address becomes
`proxyOrigin ++ "/proxy/" ++ hostport`. -/
def absRepl (o : List Char) (s : List Char) : Option (Nat × List Char) :=
  (matchAbs s).map fun p => (p.1.length + 2 + p.2.length, o ++ "/proxy/".data ++ p.2)

/-- Case-insensitive character comparison (the `i` regex flag). -/
def lowerEq (a b : Char) : Bool := a.toLower = b.toLower

/-- Case-insensitive prefix test. -/
def ciIsPrefixOf : List Char → List Char → Bool
  | [], _ => true
  | _ :: _, [] => false
  | a :: as, b :: bs => lowerEq a b && ciIsPrefixOf as bs

/-- `href|src|action` (case-insensitive) at the head of `s`; returns the
keyword length. -/
def kwMatch (s : List Char) : Option Nat :=
  if ciIsPrefixOf "href".data s then some 4
  else if ciIsPrefixOf "src".data s then some 3
  else if ciIsPrefixOf "action".data s then some 6
  else none

/-- Is `c` one of the quote characters of the class `["']`? -/
def quoteChar (c : Char) : Bool := c = dq || c = sqc

/-- Anchored match of rule (b) of `rewriteHtml` (line 192):
`((?:href|src|action)\s*=\s*["'])\/((?!proxy\/)[^"']*)` with replacement
`$1/proxy/<currentTarget>/$2`.  Returns consumed length and replacement.
(`currentTarget` is `host:port` from the request path and is assumed to
contain no `$` replacement-pattern sequences.) -/
def matchAttr (t : List Char) (s : List Char) : Option (Nat × List Char) :=
  match kwMatch s with
  | none => none
  | some kl =>
    let r1 := s.drop kl
    let ws1 := r1.takeWhile isWsJS
    match r1.drop ws1.length with
    | c :: r3 =>
      if c = '=' then
        let ws2 := r3.takeWhile isWsJS
        match r3.drop ws2.length with
        | q :: r5 =>
          if quoteChar q then
            match r5 with
            | sl :: r6 =>
              if sl = '/' then
                if ciIsPrefixOf "proxy/".data r6 then none
                else
                  let g2 := r6.takeWhile fun ch => !quoteChar ch
                  let g1len := kl + ws1.length + 1 + ws2.length + 1
                  some (g1len + 1 + g2.length,
                    s.take g1len ++ "/proxy/".data ++ t ++ ['/'] ++ g2)
              else none
            | [] => none
          else none
        | [] => none
      else none
    | [] => none

/-- Second pass of `rewriteHtml` on its own (rule (b)). -/
def attrPass (t : List Char) (l : List Char) : List Char :=
  replaceScan (matchAttr t) l

/-- `rewriteHtml(html, proxyOrigin, currentTarget)` (lines 187-194): rule (a)
over the whole body, then rule (b) over the result. -/
def rewriteHtml (html o t : List Char) : List Char :=
  attrPass t (replaceScan (absRepl o) html)

/-- `rewriteLocation(location, proxyOrigin, currentTarget)` (lines 196-201):
one anchored internal-address replacement; if it changed nothing and the
location is root-relative, prefix `/proxy/<currentTarget>`; else unchanged. -/
def rewriteLocation (loc o t : List Char) : List Char :=
  let r :=
    match matchAbs loc with
    | some (sch, hp) => o ++ "/proxy/".data ++ hp ++ loc.drop (sch.length + 2 + hp.length)
    | none => loc
  if r ≠ loc then r
  else if "/".data.isPrefixOf loc then "/proxy/".data ++ t ++ loc
  else loc

/-- `CACHE_TTL_MS` (line 38). -/
def CACHE_TTL_MS : Nat := 10000

/-- Lookup in an association list keyed by strings (models `Map.get`). -/
def lookupKey {α : Type} (k : List Char) : List (List Char × α) → Option α
  | [] => none
  | (k', v) :: t => if k' = k then some v else lookupKey k t

/-- Remove a key (models `Map.delete`; a JS `Map` never holds duplicates, so
removing every occurrence is the same operation). -/
def eraseKey {α : Type} (k : List Char) (l : List (List Char × α)) :
    List (List Char × α) :=
  l.filter fun p => !(p.1 = k : Bool)

/-- Set a key (models `Map.set`: overwrite any existing binding). -/
def setKey {α : Type} (k : List Char) (v : α) (l : List (List Char × α)) :
    List (List Char × α) :=
  (k, v) :: eraseKey k l

/-- The shared mutable state of the container resolver: `containerCache`
(value and expiry per key), `inflightLookups` (keys with a runtime query in
flight), and a ghost counter of runtime queries issued. -/
structure CacheState where
  cache : List (List Char × (Option (List Char) × Nat))
  inflight : List (List Char)
  queries : Nat
deriving DecidableEq, Repr

/-- What a call to `lookupContainer` does synchronously. -/
inductive LookupOutcome where
  /-- Non-expired cache entry: returned immediately, no I/O. -/
  | hit : Option (List Char) → LookupOutcome
  /-- A lookup for this key is already in flight: await and reuse it. -/
  | joined : LookupOutcome
  /-- A new runtime query is issued. -/
  | newQuery : LookupOutcome
deriving DecidableEq, Repr

/-- The synchronous part of `lookupContainer(cacheKey, cmd)` (lines 41-59),
entered at time `now`: cache check, unconditional delete on miss/expiry,
in-flight check, else issue a query and register it in flight. -/
def lookupStart (st : CacheState) (key : List Char) (now : Nat) :
    CacheState × LookupOutcome :=
  match lookupKey key st.cache with
  | some (v, expiry) =>
    if now < expiry then (st, .hit v)
    else
      let c' := eraseKey key st.cache
      if key ∈ st.inflight then ({ st with cache := c' }, .joined)
      else (⟨c', key :: st.inflight, st.queries + 1⟩, .newQuery)
  | none =>
    let c' := eraseKey key st.cache
    if key ∈ st.inflight then ({ st with cache := c' }, .joined)
    else (⟨c', key :: st.inflight, st.queries + 1⟩, .newQuery)

/-- The `exec` callback plus the `.finally` cleanup of `lookupContainer`
(lines 49-55), firing at time `now` with the query's outcome: the result is
`(stdout || "").trim() || null` — the error argument is ignored by the code —
and is cached with a fresh TTL; the in-flight entry is removed.  Returns the
new state and the resolved value. -/
def lookupComplete (st : CacheState) (key : List Char) (_err : Bool)
    (stdout : List Char) (now : Nat) : CacheState × Option (List Char) :=
  let result : Option (List Char) := if trimJS stdout = [] then none else some (trimJS stdout)
  (⟨setKey key (result, now + CACHE_TTL_MS) st.cache,
    st.inflight.filter (fun x => !(x = key : Bool)), st.queries⟩, result)

/-- `extractClusterName(hostname)` (lines 61-64): the regex
`^yb-(.+)-node\d+$` — greedy `.+`, so the cluster part runs to the last
`-node<digits>` suffix. -/
def extractClusterName (hostname : List Char) : Option (List Char) :=
  if "yb-".data.isPrefixOf hostname then
    let rest := hostname.drop 3
    let dsRev := rest.reverse.takeWhile Char.isDigit
    if dsRev.isEmpty then none
    else
      let w' := rest.take (rest.length - dsRev.length)
      if "-node".data.isSuffixOf w' ∧ 5 < w'.length then
        some (w'.take (w'.length - 5))
      else none
  else none

/-- An inbound HTTP request as seen by the listener. -/
structure HttpRequest where
  method : String
  url : String
  body : String
deriving DecidableEq, Repr

/-- How the listener dispatches a request. -/
inductive RouteAction where
  /-- `OPTIONS` short-circuits with 204 (startServer, lines 619-623). -/
  | options204 : RouteAction
  /-- `/favicon.ico` or `/favicon.svg` (lines 251-255). -/
  | favicon : RouteAction
  /-- Anything not matching `/proxy/<host>:<port>[/...]` (lines 257-278). -/
  | landing : RouteAction
  /-- A well-formed proxy target: host, port, downstream path+query. -/
  | proxyFetch : List Char → List Char → List Char → RouteAction
deriving DecidableEq, Repr

/-- Last index of `c` in `l` (models `String.prototype.lastIndexOf`). -/
def lastIdxOf (c : Char) (l : List Char) : Option Nat :=
  match findSub [c] l.reverse with
  | some i => some (l.length - 1 - i)
  | none => none

/-- Path parsing of `handleProxy` (lines 262-281): strip `/proxy/`, split at
the first `/` into `host:port` and path (default path `/`), split `host:port`
at the last `:`, require the colon neither first nor last and the port all
digits. -/
def parseProxyPath (url : List Char) : Option (List Char × List Char × List Char) :=
  if "/proxy/".data.isPrefixOf url then
    let remainder := url.drop 7
    let hostPort :=
      match findSub ['/'] remainder with
      | some fs => remainder.take fs
      | none => remainder
    let pathAndQuery :=
      match findSub ['/'] remainder with
      | some fs => remainder.drop fs
      | none => "/".data
    match lastIdxOf ':' hostPort with
    | some lc =>
      if 1 ≤ lc ∧ lc + 1 < hostPort.length then
        let targetPort := hostPort.drop (lc + 1)
        if targetPort.all Char.isDigit then
          some (hostPort.take lc, targetPort, pathAndQuery)
        else none
      else none
    | none => none
  else none

/-- The listener's dispatch (startServer lines 614-631 and handleProxy lines
246-283): `OPTIONS` → 204; favicon paths → the inline icon; a well-formed
`/proxy/<host>:<port>` path → the proxy pipeline; everything else → the
landing page.  (An empty `req.url` defaults to `"/"`, line 247.) -/
def routeRequest (req : HttpRequest) : RouteAction :=
  if req.method = "OPTIONS" then .options204
  else
    let url := if req.url = "" then "/" else req.url
    if url = "/favicon.ico" ∨ url = "/favicon.svg" then .favicon
    else
      match parseProxyPath url.data with
      | some (h, p, pq) => .proxyFetch h p pq
      | none => .landing

/-- `shellEscape(s)` (lines 109-111): every single quote becomes `'\''`. -/
def shellEscape (s : List Char) : List Char :=
  s.flatMap fun c => if c = sqc then [sqc, bsl, sqc, sqc] else [c]

/-- The in-container fetch command (line 306):
`docker exec <container> curl -sS -i --connect-timeout 5 --max-time 30 '<url>'`.
No method flag and no request body are ever passed, so `curl` performs a GET. -/
def buildFetchCmd (container : List Char) (targetUrl : List Char) : List Char :=
  "docker exec ".data ++ container ++
    " curl -sS -i --connect-timeout 5 --max-time 30 ".data ++
    [sqc] ++ shellEscape targetUrl ++ [sqc]

/-- The command the handler executes against a resolved container for a given
request (lines 280-281 build `targetUrl`; line 306 builds the command);
`none` when the request never reaches the fetch stage. -/
def upstreamCommand (req : HttpRequest) (container : List Char) : Option (List Char) :=
  match routeRequest req with
  | .proxyFetch h p pq =>
    some (buildFetchCmd container ("http://".data ++ h ++ [':'] ++ p ++ pq))
  | _ => none

/-- The asynchronous completions that can reach one proxied response
(`handleProxy`, lines 285-361).  The container-lookup promise is built with an
executor that only ever calls `resolve` (lines 49-55), so the `.catch` handler
at line 356 can never run and has no event here. -/
inductive PEvent where
  /-- The 60 s timeout timer expires (lines 285-290). -/
  | fire : PEvent
  /-- `findContainer` resolves with a container name or `null` (lines 292-307). -/
  | resolve : Option (List Char) → PEvent
  /-- The `docker exec curl` callback runs; `true` means `error` was set
  (lines 308-354). -/
  | fetchDone : Bool → PEvent
deriving DecidableEq, Repr

/-- Observable per-request state: whether the response has ended
(`writableEnded`/`destroyed`), whether the timeout timer is still armed,
which completions are still pending, and a ghost count of calls that end the
response. -/
structure PState where
  resDone : Bool
  timer : Bool
  resolvePending : Bool
  fetchPending : Bool
  writes : Nat
deriving DecidableEq, Repr

/-- State when `handleProxy` has parsed a `/proxy/...` target and started the
timer and the container lookup. -/
def pInit : PState := ⟨false, true, true, false, 0⟩

/-- `safeEnd(res, ...)` (lines 218-234): ends the response (one final write). -/
def doSafeEnd (s : PState) : PState :=
  { s with resDone := true, writes := s.writes + 1 }

/-- One event-loop callback, run atomically (Node is single threaded).
Each branch transcribes the corresponding callback body, including its
`isResponseDone` guards and `clearTimeout` calls; an event whose completion is
not pending (or a timer that was cleared) cannot fire and leaves the state
unchanged. -/
def pStep (s : PState) : PEvent → PState
  | .fire =>
    if s.timer then
      let s1 := { s with timer := false }
      if s1.resDone then s1 else doSafeEnd s1
    else s
  | .resolve c =>
    if s.resolvePending then
      let s1 := { s with resolvePending := false }
      if s1.resDone then { s1 with timer := false }
      else
        match c with
        | none => doSafeEnd { s1 with timer := false }
        | some _ => { s1 with fetchPending := true }
    else s
  | .fetchDone _e =>
    if s.fetchPending then
      let s1 := { s with fetchPending := false, timer := false }
      if s1.resDone then s1
      else doSafeEnd s1
    else s

/-- Run a sequence of completions against one request. -/
def pRun (evs : List PEvent) : PState :=
  evs.foldl pStep pInit

/-! ## Substring-search lemmas -/

theorem findSub_none {pat s : List Char} (h : findSub pat s = none) :
    ∀ i, ¬ pat <+: s.drop i := by
  induction s with
  | nil =>
    intro i hp
    rw [findSub] at h
    rw [List.drop_nil] at hp
    split at h
    · exact Option.noConfusion h
    · rename_i hnp
      simp only [ List.isPrefixOf_iff_prefix] at hnp
      exact hnp hp
  | cons c tl ih =>
    rw [findSub] at h
    split at h
    · exact Option.noConfusion h
    · intro i hp
      cases i with
      | zero =>
        rename_i hnp
        rw [ List.isPrefixOf_iff_prefix] at hnp
        simp at hp
        exact hnp (by simpa using hp)
      | succ j =>
        have h2 : findSub pat tl = none := by
          cases hfs : findSub pat tl with
          | none => rfl
          | some k => rw [hfs] at h; exact Option.noConfusion h
        exact ih h2 j (by simpa using hp)

theorem findSub_isSome {pat s : List Char} {i : Nat} (h : pat <+: s.drop i) :
    (findSub pat s).isSome := by
  induction s generalizing i with
  | nil =>
    rw [List.drop_nil] at h
    rw [findSub]
    rw [List.prefix_nil] at h
    subst h
    simp
  | cons c tl ih =>
    rw [findSub]
    split
    · simp
    · rename_i hnp
      rw [ List.isPrefixOf_iff_prefix] at hnp
      cases i with
      | zero => exact absurd (by simpa using h) hnp
      | succ j =>
        have := ih (i := j) (by simpa using h)
        cases hfs : findSub pat tl with
        | none => rw [hfs] at this; simp at this
        | some k => simp [hfs]

theorem findSub_eq_some {pat s : List Char} {i : Nat} (h : findSub pat s = some i) :
    pat <+: s.drop i ∧ ∀ j, j < i → ¬ pat <+: s.drop j := by
  induction s generalizing i with
  | nil =>
    rw [findSub] at h
    split at h
    · rename_i hp
      rw [ List.isPrefixOf_iff_prefix] at hp
      cases h
      exact ⟨by simpa using hp, by omega⟩
    · exact Option.noConfusion h
  | cons c tl ih =>
    rw [findSub] at h
    split at h
    · rename_i hp
      rw [ List.isPrefixOf_iff_prefix] at hp
      cases h
      exact ⟨by simpa using hp, by omega⟩
    · rename_i hnp
      rw [ List.isPrefixOf_iff_prefix] at hnp
      cases hfs : findSub pat tl with
      | none => rw [hfs] at h; exact Option.noConfusion h
      | some k =>
        rw [hfs] at h
        simp at h
        subst h
        obtain ⟨h1, h2⟩ := ih hfs
        refine ⟨by simpa using h1, ?_⟩
        intro j hj hp
        cases j with
        | zero => exact hnp (by simpa using hp)
        | succ j' => exact h2 j' (by omega) (by simpa using hp)

theorem findSub_eq_some_of {pat s : List Char} {i : Nat} (hocc : pat <+: s.drop i)
    (hmin : ∀ j, j < i → ¬ pat <+: s.drop j) : findSub pat s = some i := by
  have hs := findSub_isSome hocc
  cases hfs : findSub pat s with
  | none => rw [hfs] at hs; simp at hs
  | some j =>
    obtain ⟨h1, h2⟩ := findSub_eq_some hfs
    have hij : ¬ j < i := fun hlt => hmin j hlt h1
    have hji : ¬ i < j := fun hlt => h2 i hlt hocc
    have : i = j := by omega
    rw [this]

/-! ## Boundary-detection lemmas -/

theorem stage1_eq_none {s : List Char} (h1 : ∀ i, ¬ CRLF2 <+: s.drop i)
    (h2 : ∀ i, ¬ LF2 <+: s.drop i) : stage1 s = none := by
  have c1 : findSub CRLF2 s = none := by
    cases hf : findSub CRLF2 s with
    | none => rfl
    | some k => exact absurd (findSub_eq_some hf).1 (h1 k)
  have c2 : findSub LF2 s = none := by
    cases hf : findSub LF2 s with
    | none => rfl
    | some k => exact absurd (findSub_eq_some hf).1 (h2 k)
  rw [stage1, c1, c2]

theorem stage1_shape {s : List Char} {ne : Nat} {bnd : List Char}
    (h : stage1 s = some (ne, bnd)) :
    (bnd = CRLF2 ∧ findSub CRLF2 s = some ne) ∨ (bnd = LF2 ∧ findSub LF2 s = some ne) := by
  cases hc : findSub CRLF2 s with
  | none =>
    cases hl : findSub LF2 s with
    | none => simp only [stage1, hc, hl] at h; exact Option.noConfusion h
    | some l =>
      simp only [stage1, hc, hl, Option.some.injEq, Prod.mk.injEq] at h
      exact Or.inr ⟨h.2.symm, by rw [h.1]⟩
  | some c =>
    cases hl : findSub LF2 s with
    | none =>
      simp only [stage1, hc, hl, Option.some.injEq, Prod.mk.injEq] at h
      exact Or.inl ⟨h.2.symm, by rw [h.1]⟩
    | some l =>
      simp only [stage1, hc, hl] at h
      split at h
      · simp only [Option.some.injEq, Prod.mk.injEq] at h
        exact Or.inl ⟨h.2.symm, by rw [h.1]⟩
      · simp only [Option.some.injEq, Prod.mk.injEq] at h
        exact Or.inr ⟨h.2.symm, by rw [h.1]⟩

theorem stage1_reconstruct {s : List Char} {ne : Nat} {bnd : List Char}
    (h : stage1 s = some (ne, bnd)) :
    s.take ne ++ (bnd ++ s.drop (ne + bnd.length)) = s := by
  have hocc : bnd <+: s.drop ne := by
    rcases stage1_shape h with ⟨hb, hf⟩ | ⟨hb, hf⟩ <;> subst hb <;>
      exact (findSub_eq_some hf).1
  obtain ⟨t, ht⟩ := hocc
  have htd : t = s.drop (ne + bnd.length) := by
    have : (s.drop ne).drop bnd.length = s.drop (ne + bnd.length) := List.drop_drop ..
    rw [← ht, List.drop_left] at this
    rw [this]
  rw [← htd, ht, List.take_append_drop]

/-- C6.  Boundary detection: the parser anchors the initial header/body split
at the first occurrence of CRLFCRLF or LFLF, whichever occurs earlier in the
buffer, and when neither occurs the result is the whole buffer as body with no
headers and status 200. -/
theorem claim_C6_boundary_detection : ∀ data : List Char,
    ((∀ i, ¬ CRLF2 <+: data.drop i) → (∀ i, ¬ LF2 <+: data.drop i) →
      parseHttpResponse data = ⟨200, [], data⟩) ∧
    (∀ i, (CRLF2 <+: data.drop i ∨ LF2 <+: data.drop i) →
      (∀ j, j < i → ¬ (CRLF2 <+: data.drop j ∨ LF2 <+: data.drop j)) →
      stage1 data = some (i, if CRLF2.isPrefixOf (data.drop i) then CRLF2 else LF2)) := by
  intro data
  constructor
  · intro h1 h2
    have hn := stage1_eq_none h1 h2
    simp [parseHttpResponse, parseHttpResponseEx, hn]
  · intro i hocc hmin
    cases hc : CRLF2.isPrefixOf (data.drop i) with
    | true =>
      have hcp : CRLF2 <+: data.drop i := by
        simpa [ List.isPrefixOf_iff_prefix] using hc
      have fc : findSub CRLF2 data = some i :=
        findSub_eq_some_of hcp (fun j hj hp => hmin j hj (Or.inl hp))
      cases fl : findSub LF2 data with
      | none => simp [stage1, fc, fl]
      | some l =>
        have hl := findSub_eq_some fl
        have hil : i ≤ l := by
          by_contra hlt
          exact hmin l (by omega) (Or.inr hl.1)
        simp [stage1, fc, fl, hil]
    | false =>
      have hcp : ¬ CRLF2 <+: data.drop i := by
        intro hp
        have : CRLF2.isPrefixOf (data.drop i) = true := by
          simpa [ List.isPrefixOf_iff_prefix] using hp
        rw [hc] at this
        exact Bool.noConfusion this
      have hlp : LF2 <+: data.drop i := hocc.resolve_left hcp
      have fl : findSub LF2 data = some i :=
        findSub_eq_some_of hlp (fun j hj hp => hmin j hj (Or.inr hp))
      cases fc : findSub CRLF2 data with
      | none => simp [stage1, fc, fl]
      | some c =>
        have hcs := findSub_eq_some fc
        have hic : i ≤ c := by
          by_contra hlt
          exact hmin c (by omega) (Or.inl hcs.1)
        have hne : c ≠ i := fun he => hcp (he ▸ hcs.1)
        have : ¬ c ≤ i := by omega
        simp [stage1, fc, fl, this]

/-- C6 witness: the boundary-free part applied at `"abc"` and the anchoring
part applied at `"a\n\nb"`, boundary at index 1. -/
theorem claim_C6_boundary_detection_witness :
    parseHttpResponse "abc".data = ⟨200, [], "abc".data⟩ ∧
    stage1 "a\n\nb".data =
      some (1, if CRLF2.isPrefixOf ("a\n\nb".data.drop 1) then CRLF2 else LF2) := by
  constructor
  · exact (claim_C6_boundary_detection "abc".data).1
      (fun i h => by
        have hlen := h.length_le
        rw [List.length_drop] at hlen
        have e1 : CRLF2.length = 4 := rfl
        have e2 : ("abc".data).length = 3 := rfl
        omega)
      (fun i h => by
        rcases Nat.lt_or_ge i 3 with hi | hi
        · interval_cases i <;> revert h <;> decide
        · have hlen := h.length_le
          rw [List.length_drop] at hlen
          have e1 : LF2.length = 2 := rfl
          have e2 : ("abc".data).length = 3 := rfl
          omega)
  · exact (claim_C6_boundary_detection "a\n\nb".data).2 1 (by decide)
      (by decide)

/-! ## Skip-loop lemmas -/

theorem stage1_bound {x : List Char} {ne : Nat} {bnd : List Char}
    (h : stage1 x = some (ne, bnd)) : 0 < bnd.length ∧ ne + bnd.length ≤ x.length := by
  have hocc : bnd <+: x.drop ne := by
    rcases stage1_shape h with ⟨hb, hf⟩ | ⟨hb, hf⟩ <;> subst hb <;>
      exact (findSub_eq_some hf).1
  have hpos : 0 < bnd.length := by
    rcases stage1_shape h with ⟨hb, _⟩ | ⟨hb, _⟩ <;> subst hb <;> decide
  have hlen := hocc.length_le
  rw [List.length_drop] at hlen
  exact ⟨hpos, by omega⟩

theorem drop_http_empty {data : List Char} {s : Nat} (h : data.length ≤ s) :
    "HTTP/".data.isPrefixOf (data.drop s) = false := by
  rw [List.drop_eq_nil_of_le h]
  rfl

theorem skipLoopF_zero (data : List Char) (acc : List Char × List Char × Nat) :
    skipLoopF data 0 acc = acc := rfl

theorem skipLoopF_succ_guard_false {data : List Char} {s : Nat} (f : Nat)
    (h b : List Char) (hguard : "HTTP/".data.isPrefixOf (data.drop s) = false) :
    skipLoopF data (f + 1) (h, b, s) = (h, b, s) := by
  simp only [skipLoopF, hguard]
  rfl

theorem skipLoopF_succ_none {data : List Char} {s : Nat} (f : Nat)
    (h b : List Char) (hguard : "HTTP/".data.isPrefixOf (data.drop s) = true)
    (hst : stage1 (data.drop s) = none) :
    skipLoopF data (f + 1) (h, b, s) = (h, b, s) := by
  simp only [skipLoopF, hguard, hst, if_true]

theorem skipLoopF_succ_some {data : List Char} {s ne : Nat} {bnd : List Char} (f : Nat)
    (h b : List Char) (hguard : "HTTP/".data.isPrefixOf (data.drop s) = true)
    (hst : stage1 (data.drop s) = some (ne, bnd)) :
    skipLoopF data (f + 1) (h, b, s) =
      skipLoopF data f ((data.drop s).take ne, bnd, s + ne + bnd.length) := by
  simp only [skipLoopF, hguard, hst, if_true]

theorem skipLoopF_stable (data : List Char) :
    ∀ f₁ f₂ (h b : List Char) (s : Nat), data.length - s ≤ f₁ → data.length - s ≤ f₂ →
      skipLoopF data f₁ (h, b, s) = skipLoopF data f₂ (h, b, s) := by
  intro f₁
  induction f₁ with
  | zero =>
    intro f₂ h b s h1 h2
    have hguard := @drop_http_empty data s (by omega)
    cases f₂ with
    | zero => rfl
    | succ f => rw [skipLoopF_zero, skipLoopF_succ_guard_false f h b hguard]
  | succ f ih =>
    intro f₂ h b s h1 h2
    cases f₂ with
    | zero =>
      have hguard := @drop_http_empty data s (by omega)
      rw [skipLoopF_zero, skipLoopF_succ_guard_false f h b hguard]
    | succ f' =>
      cases hguard : "HTTP/".data.isPrefixOf (data.drop s) with
      | false =>
        rw [skipLoopF_succ_guard_false f h b hguard,
          skipLoopF_succ_guard_false f' h b hguard]
      | true =>
        cases hst : stage1 (data.drop s) with
        | none =>
          rw [skipLoopF_succ_none f h b hguard hst, skipLoopF_succ_none f' h b hguard hst]
        | some p =>
          obtain ⟨ne, bnd⟩ := p
          rw [skipLoopF_succ_some f h b hguard hst, skipLoopF_succ_some f' h b hguard hst]
          have hb := stage1_bound hst
          rw [List.length_drop] at hb
          exact ih f' _ _ _ (by omega) (by omega)

theorem skipLoopF_fixed (data : List Char) :
    ∀ fuel (h b : List Char) (s : Nat), data.length - s ≤ fuel →
      ("HTTP/".data.isPrefixOf
          (data.drop (skipLoopF data fuel (h, b, s)).2.2) = true →
        stage1 (data.drop (skipLoopF data fuel (h, b, s)).2.2) = none) := by
  intro fuel
  induction fuel with
  | zero =>
    intro h b s hle hpre
    have hguard := @drop_http_empty data s (by omega)
    rw [skipLoopF_zero] at hpre
    rw [hguard] at hpre
    exact Bool.noConfusion hpre
  | succ f ih =>
    intro h b s hle
    cases hguard : "HTTP/".data.isPrefixOf (data.drop s) with
    | false =>
      rw [skipLoopF_succ_guard_false f h b hguard]
      intro hpre
      rw [hguard] at hpre
      exact Bool.noConfusion hpre
    | true =>
      cases hst : stage1 (data.drop s) with
      | none =>
        rw [skipLoopF_succ_none f h b hguard hst]
        intro _
        exact hst
      | some p =>
        obtain ⟨ne, bnd⟩ := p
        rw [skipLoopF_succ_some f h b hguard hst]
        have hb := stage1_bound hst
        rw [List.length_drop] at hb
        exact ih _ _ _ (by omega)

theorem skipLoopF_suffix (data : List Char) :
    ∀ fuel (h b : List Char) (s : Nat), (h ++ (b ++ data.drop s)) <:+ data →
      ((skipLoopF data fuel (h, b, s)).1 ++
        ((skipLoopF data fuel (h, b, s)).2.1 ++
          data.drop (skipLoopF data fuel (h, b, s)).2.2)) <:+ data := by
  intro fuel
  induction fuel with
  | zero => intro h b s hinv; exact hinv
  | succ f ih =>
    intro h b s hinv
    cases hguard : "HTTP/".data.isPrefixOf (data.drop s) with
    | false => rw [skipLoopF_succ_guard_false f h b hguard]; exact hinv
    | true =>
      cases hst : stage1 (data.drop s) with
      | none => rw [skipLoopF_succ_none f h b hguard hst]; exact hinv
      | some p =>
        obtain ⟨ne, bnd⟩ := p
        rw [skipLoopF_succ_some f h b hguard hst]
        apply ih
        have hrec := stage1_reconstruct hst
        have hdd : (data.drop s).drop (ne + bnd.length) = data.drop (s + ne + bnd.length) := by
          rw [List.drop_drop]
          ring_nf
        rw [← hdd, hrec]
        exact List.drop_suffix s data

/-- C7.  The informational-response skip loop always terminates: a successful
boundary detection advances the body start by `ne + bnd.length`, which is
positive (at least the boundary length) and bounded by the remaining buffer,
so fuel `data.length` reaches the loop's fixed point (adding fuel changes
nothing), and the state it stops in admits no further skip (any `HTTP/` at the
final body start has no further boundary). -/
theorem claim_C7_skip_loop_termination : ∀ data : List Char,
    (∀ (s ne : Nat) (bnd : List Char), stage1 (data.drop s) = some (ne, bnd) →
      (0 < bnd.length ∧ bnd.length ≤ ne + bnd.length) ∧
        ne + bnd.length ≤ data.length - s) ∧
    (∀ (fuel : Nat) (h b : List Char) (s : Nat), data.length ≤ fuel →
      skipLoopF data fuel (h, b, s) = skipLoopF data data.length (h, b, s)) ∧
    (∀ (h b : List Char) (s : Nat),
      "HTTP/".data.isPrefixOf
          (data.drop (skipLoopF data data.length (h, b, s)).2.2) = true →
        stage1 (data.drop (skipLoopF data data.length (h, b, s)).2.2) = none) := by
  intro data
  refine ⟨?_, ?_, ?_⟩
  · intro s ne bnd hst
    have hb := stage1_bound hst
    rw [List.length_drop] at hb
    exact ⟨⟨hb.1, by omega⟩, hb.2⟩
  · intro fuel h b s hle
    exact skipLoopF_stable data fuel data.length h b s (by omega) (by omega)
  · intro h b s
    exact skipLoopF_fixed data data.length h b s (by omega)

/-- C7 witness: the loop applied to a response with one interim
`100 Continue` block reaches body start 44, extra fuel changes nothing, and
the final body start admits no further skip. -/
theorem claim_C7_skip_loop_termination_witness :
    (stage1 ("HTTP/1.1 100 Continue\r\n\r\nHTTP/1.1 200 OK\r\n\r\nhello".data.drop 0) =
        some (21, CRLF2) →
      (0 < CRLF2.length ∧ CRLF2.length ≤ 21 + CRLF2.length) ∧
        21 + CRLF2.length ≤ "HTTP/1.1 100 Continue\r\n\r\nHTTP/1.1 200 OK\r\n\r\nhello".data.length - 0) ∧
    skipLoopF "HTTP/1.1 100 Continue\r\n\r\nHTTP/1.1 200 OK\r\n\r\nhello".data 60
        ([], [], 25) =
      skipLoopF "HTTP/1.1 100 Continue\r\n\r\nHTTP/1.1 200 OK\r\n\r\nhello".data
        "HTTP/1.1 100 Continue\r\n\r\nHTTP/1.1 200 OK\r\n\r\nhello".data.length
        ([], [], 25) := by
  refine ⟨(claim_C7_skip_loop_termination _).1 0 21 CRLF2, ?_⟩
  exact (claim_C7_skip_loop_termination _).2.1 60 [] [] 25 (by decide)

/-! ## The header/body split (C3) -/

theorem parseEx_fields {data : List Char} {he : Nat} {bnd : List Char}
    (hst : stage1 data = some (he, bnd)) :
    (parseHttpResponseEx data).headerBlock =
        (skipLoopF data data.length (data.take he, bnd, he + bnd.length)).1 ∧
      (parseHttpResponseEx data).boundary =
        (skipLoopF data data.length (data.take he, bnd, he + bnd.length)).2.1 ∧
      (parseHttpResponseEx data).body =
        data.drop (skipLoopF data data.length (data.take he, bnd, he + bnd.length)).2.2 := by
  simp only [parseHttpResponseEx, hst]
  exact ⟨trivial, trivial, trivial⟩

/-- C3 counterexample: on a response preceded by an interim `100 Continue`
block, the detected header block ++ boundary ++ body is *not* a prefix of the
input (the interim response bytes precede it), refuting the claim as stated. -/
theorem claim_C3_split_prefix_counterexample :
    ¬ ((parseHttpResponseEx "HTTP/1.1 100 Continue\r\n\r\nHTTP/1.1 200 OK\r\n\r\nhello".data).headerBlock ++
        ((parseHttpResponseEx "HTTP/1.1 100 Continue\r\n\r\nHTTP/1.1 200 OK\r\n\r\nhello".data).boundary ++
          (parseHttpResponse "HTTP/1.1 100 Continue\r\n\r\nHTTP/1.1 200 OK\r\n\r\nhello".data).body)) <+:
      "HTTP/1.1 100 Continue\r\n\r\nHTTP/1.1 200 OK\r\n\r\nhello".data := by
  decide

/-- A sufficient condition for the reconstruction to be the whole input: when
the bytes after the first boundary do not start another `HTTP/` status line,
the skip loop never re-anchors.  (Not necessary: with an `HTTP/` there but no
further boundary, the loop also stops and the whole input is reconstructed.) -/
theorem parse_reconstructs_all_of_no_skip :
    ∀ (data : List Char) (he : Nat) (bnd : List Char),
    stage1 data = some (he, bnd) →
    "HTTP/".data.isPrefixOf (data.drop (he + bnd.length)) = false →
    (parseHttpResponseEx data).headerBlock ++
        ((parseHttpResponseEx data).boundary ++ (parseHttpResponse data).body) = data := by
  intro data he bnd hst hguard
  have hbody : (parseHttpResponse data).body = (parseHttpResponseEx data).body := rfl
  rw [hbody]
  obtain ⟨e1, e2, e3⟩ := parseEx_fields hst
  rw [e1, e2, e3]
  have hb := stage1_bound hst
  have hpos : 1 ≤ data.length := by omega
  obtain ⟨n, hn⟩ : ∃ n, data.length = n + 1 := ⟨data.length - 1, by omega⟩
  rw [hn, skipLoopF_succ_guard_false n _ _ hguard]
  exact stage1_reconstruct hst

/-- C3 (amended).  The split is lossless as a *suffix*: for every input, the
detected header block concatenated with the detected boundary and with
`parse(bytes).body` reconstructs a contiguous suffix of the input bytes — no
bytes are lost or duplicated across the header/body split.  (After skipping
informational responses the suffix can be proper, so it is not in general a
prefix.) -/
theorem claim_C3_split_reconstruction : ∀ data : List Char,
    ((parseHttpResponseEx data).headerBlock ++
        ((parseHttpResponseEx data).boundary ++ (parseHttpResponse data).body)) <:+ data := by
  intro data
  have hbody : (parseHttpResponse data).body = (parseHttpResponseEx data).body := rfl
  rw [hbody]
  cases hst : stage1 data with
  | none =>
    simp only [parseHttpResponseEx, hst, List.nil_append]
    exact List.suffix_refl data
  | some p =>
    obtain ⟨he, bnd⟩ := p
    obtain ⟨e1, e2, e3⟩ := parseEx_fields hst
    rw [e1, e2, e3]
    apply skipLoopF_suffix
    have := stage1_reconstruct hst
    rw [this]

/-! ## HTML rewriting (C5, C8) -/

theorem replaceScanF_id (m : List Char → Option (Nat × List Char)) :
    ∀ l : List Char, (∀ i, i < l.length → m (l.drop i) = none) →
      ∀ fuel, replaceScanF m fuel l = l := by
  intro l
  induction l with
  | nil => intro _ fuel; cases fuel <;> rfl
  | cons c cs ih =>
    intro h fuel
    cases fuel with
    | zero => rfl
    | succ f =>
      have h0 : m (c :: cs) = none := by
        have := h 0 (by simp)
        simpa using this
      simp only [replaceScanF, h0]
      have : replaceScanF m f cs = cs := by
        apply ih
        intro i hi
        have := h (i + 1) (by simp; omega)
        simpa using this
      rw [this]

/-- C5.  Body rewriting is the identity on clean HTML: when no position of the
body matches the internal-address pattern (rule (a)) and no position matches
the root-relative attribute pattern (rule (b)), `rewriteHtml` returns the body
unchanged. -/
theorem claim_C5_rewrite_identity : ∀ (html o t : List Char),
    (∀ i, i < html.length → matchAbs (html.drop i) = none) →
    (∀ i, i < html.length → matchAttr t (html.drop i) = none) →
    rewriteHtml html o t = html := by
  intro html o t hA hB
  have h1 : replaceScan (absRepl o) html = html := by
    apply replaceScanF_id
    intro i hi
    rw [absRepl, hA i hi]
    rfl
  rw [rewriteHtml, h1]
  exact replaceScanF_id _ _ hB _

/-- C5 witness: a body with no internal references. -/
theorem claim_C5_rewrite_identity_witness :
    rewriteHtml "<p>hello <a>world</a></p>".data "http://localhost:15080".data
        "yb-demo-node1:7000".data =
      "<p>hello <a>world</a></p>".data :=
  claim_C5_rewrite_identity _ _ _ (by decide) (by decide)

theorem lowerEq_refl (c : Char) : lowerEq c c = true := by
  simp [lowerEq]

theorem ciIsPrefixOf_refl_append : ∀ (l rest : List Char), ciIsPrefixOf l (l ++ rest) = true := by
  intro l
  induction l with
  | nil => intro rest; rfl
  | cons a as ih => intro rest; simp [ciIsPrefixOf, lowerEq_refl, ih]

theorem ciIsPrefixOf_false_of_head (a b : Char) (as bs : List Char)
    (h : lowerEq a b = false) : ciIsPrefixOf (a :: as) (b :: bs) = false := by
  simp [ciIsPrefixOf, h]

theorem kwMatch_kw (kw rest : List Char)
    (hkw : kw = "href".data ∨ kw = "src".data ∨ kw = "action".data) :
    kwMatch (kw ++ rest) = some kw.length := by
  rcases hkw with h | h | h <;> subst h
  · unfold kwMatch
    rw [ciIsPrefixOf_refl_append]
    rfl
  · have h1 : ciIsPrefixOf "href".data ("src".data ++ rest) = false :=
      ciIsPrefixOf_false_of_head 'h' 's' "ref".data ("rc".data ++ rest) (by decide)
    unfold kwMatch
    rw [h1, ciIsPrefixOf_refl_append]
    rfl
  · have h1 : ciIsPrefixOf "href".data ("action".data ++ rest) = false :=
      ciIsPrefixOf_false_of_head 'h' 'a' "ref".data ("ction".data ++ rest) (by decide)
    have h2 : ciIsPrefixOf "src".data ("action".data ++ rest) = false :=
      ciIsPrefixOf_false_of_head 's' 'a' "rc".data ("ction".data ++ rest) (by decide)
    unfold kwMatch
    rw [h1, h2, ciIsPrefixOf_refl_append]
    rfl

theorem takeWhile_append_stop (p : Char → Bool) (val : List Char) (q : Char)
    (rest : List Char) (hval : ∀ c ∈ val, p c = true) (hq : p q = false) :
    (val ++ q :: rest).takeWhile p = val := by
  induction val with
  | nil =>
    rw [List.nil_append, List.takeWhile_cons, hq]
    rfl
  | cons a as ih =>
    have ha : p a = true := hval a (List.mem_cons_self a as)
    rw [List.cons_append, List.takeWhile_cons, ha]
    simp only [if_true]
    rw [ih fun c hc => hval c (List.mem_cons_of_mem a hc)]

theorem quoteChar_eq {q : Char} (h : quoteChar q = true) : q = dq ∨ q = sqc := by
  have := h
  unfold quoteChar at this
  rcases Bool.or_eq_true_iff.mp this with h1 | h1
  · exact Or.inl (by simpa using h1)
  · exact Or.inr (by simpa using h1)

theorem isWsJS_quote {q : Char} (h : quoteChar q = true) : isWsJS q = false := by
  rcases quoteChar_eq h with h1 | h1 <;> subst h1 <;> decide

theorem ciIsPrefixOf_append_quote :
    ∀ (val pat : List Char), (∀ p ∈ pat, lowerEq p dq = false ∧ lowerEq p sqc = false) →
      (∀ c ∈ val, quoteChar c = false) → ciIsPrefixOf pat val = false →
      ∀ (q : Char) (rest : List Char), quoteChar q = true →
        ciIsPrefixOf pat (val ++ q :: rest) = false := by
  intro val
  induction val with
  | nil =>
    intro pat hpat _ hfalse q rest hq
    match pat, hfalse with
    | p :: pat', _ =>
      have hp := hpat p (List.mem_cons_self p pat')
      have : lowerEq p q = false := by
        rcases quoteChar_eq hq with h1 | h1 <;> subst h1
        · exact hp.1
        · exact hp.2
      rw [List.nil_append]
      exact ciIsPrefixOf_false_of_head _ _ _ _ this
  | cons c val' ih =>
    intro pat hpat hval hfalse q rest hq
    match pat with
    | [] => exact absurd hfalse (by simp [ciIsPrefixOf])
    | p :: pat' =>
      rw [List.cons_append]
      cases hlq : lowerEq p c with
      | false => exact ciIsPrefixOf_false_of_head _ _ _ _ hlq
      | true =>
        have hfalse' : ciIsPrefixOf pat' val' = false := by
          rw [show ciIsPrefixOf (p :: pat') (c :: val') =
              (lowerEq p c && ciIsPrefixOf pat' val') from rfl, hlq] at hfalse
          simpa using hfalse
        have := ih pat' (fun x hx => hpat x (List.mem_cons_of_mem p hx))
          (fun x hx => hval x (List.mem_cons_of_mem c hx)) hfalse' q rest hq
        rw [show ciIsPrefixOf (p :: pat') (c :: (val' ++ q :: rest)) =
            (lowerEq p c && ciIsPrefixOf pat' (val' ++ q :: rest)) from rfl, hlq, this]
        rfl

theorem matchAttr_at (kw : List Char) (q : Char) (val post t : List Char)
    (hkw : kw = "href".data ∨ kw = "src".data ∨ kw = "action".data)
    (hq : quoteChar q = true)
    (hval : ∀ c ∈ val, quoteChar c = false)
    (hproxy : ciIsPrefixOf "proxy/".data val = false) :
    matchAttr t (kw ++ '=' :: q :: '/' :: (val ++ q :: post)) =
      some (kw.length + 2 + 1 + val.length,
        (kw ++ ['=', q]) ++ "/proxy/".data ++ t ++ ['/'] ++ val) := by
  have hkl := kwMatch_kw kw ('=' :: q :: '/' :: (val ++ q :: post)) hkw
  have hdrop : (kw ++ '=' :: q :: '/' :: (val ++ q :: post)).drop kw.length =
      '=' :: q :: '/' :: (val ++ q :: post) := List.drop_left kw _
  have hws1 : ('=' :: q :: '/' :: (val ++ q :: post)).takeWhile isWsJS = [] := by
    rw [List.takeWhile_cons, show isWsJS '=' = false from by decide]
    rfl
  have hws2 : (q :: '/' :: (val ++ q :: post)).takeWhile isWsJS = [] := by
    rw [List.takeWhile_cons, isWsJS_quote hq]
    rfl
  have hpx : ciIsPrefixOf "proxy/".data (val ++ q :: post) = false :=
    ciIsPrefixOf_append_quote val "proxy/".data (by decide) hval hproxy q post hq
  have hg2 : (val ++ q :: post).takeWhile (fun ch => !quoteChar ch) = val :=
    takeWhile_append_stop _ val q post
      (fun c hc => by rw [hval c hc]; rfl) (by rw [hq]; rfl)
  have htake : (kw ++ '=' :: q :: '/' :: (val ++ q :: post)).take (kw.length + 2) =
      kw ++ ['=', q] := by
    rw [List.take_append_eq_append_take, List.take_of_length_le (by omega),
      show kw.length + 2 - kw.length = 2 from by omega]
    rfl
  unfold matchAttr
  rw [hkl]
  dsimp only
  rw [hdrop, hws1]
  dsimp only [List.length_nil, List.drop_zero]
  rw [if_pos rfl, hws2]
  dsimp only [List.length_nil, List.drop_zero]
  rw [hq]
  rw [if_pos rfl, if_pos rfl, hpx]
  rw [if_neg (by simp), hg2]
  rw [show kw.length + 0 + 1 + 0 + 1 = kw.length + 2 from by omega, htake]

theorem replaceScanF_cons_some (m : List Char → Option (Nat × List Char)) (c : Char)
    (cs out : List Char) (n f : Nat) (hm : m (c :: cs) = some (n + 1, out)) :
    replaceScanF m (f + 1) (c :: cs) = out ++ replaceScanF m f (cs.drop n) := by
  simp only [replaceScanF, hm]

theorem replaceScanF_cons_none (m : List Char → Option (Nat × List Char)) (c : Char)
    (cs : List Char) (f : Nat) (hm : m (c :: cs) = none) :
    replaceScanF m (f + 1) (c :: cs) = c :: replaceScanF m f cs := by
  simp only [replaceScanF, hm]

theorem replaceScanF_stable (m : List Char → Option (Nat × List Char)) :
    ∀ f₁ f₂ (l : List Char), l.length ≤ f₁ → l.length ≤ f₂ →
      replaceScanF m f₁ l = replaceScanF m f₂ l := by
  intro f₁
  induction f₁ with
  | zero =>
    intro f₂ l h1 _
    have : l = [] := List.length_eq_zero.mp (by omega)
    subst this
    cases f₂ <;> rfl
  | succ f ih =>
    intro f₂ l h1 h2
    cases l with
    | nil => cases f₂ <;> rfl
    | cons c cs =>
      cases f₂ with
      | zero => simp at h2
      | succ f' =>
        cases hm : m (c :: cs) with
        | none =>
          rw [replaceScanF_cons_none m c cs f hm, replaceScanF_cons_none m c cs f' hm]
          have := ih f' cs (by simp at h1; omega) (by simp at h2; omega)
          rw [this]
        | some p =>
          obtain ⟨n, out⟩ := p
          cases n with
          | zero =>
            simp only [replaceScanF, hm]
            have := ih f' cs (by simp at h1; omega) (by simp at h2; omega)
            rw [this]
          | succ n' =>
            rw [replaceScanF_cons_some m c cs out n' f hm,
              replaceScanF_cons_some m c cs out n' f' hm]
            have hd : (cs.drop n').length ≤ cs.length := by
              rw [List.length_drop]; omega
            have := ih f' (cs.drop n') (by simp at h1; omega) (by simp at h2; omega)
            rw [this]

theorem kwMatch_none_of_head (c : Char) (rest : List Char)
    (h1 : lowerEq 'h' c = false) (h2 : lowerEq 's' c = false)
    (h3 : lowerEq 'a' c = false) : kwMatch (c :: rest) = none := by
  have e1 : ciIsPrefixOf "href".data (c :: rest) = false :=
    ciIsPrefixOf_false_of_head 'h' c "ref".data rest h1
  have e2 : ciIsPrefixOf "src".data (c :: rest) = false :=
    ciIsPrefixOf_false_of_head 's' c "rc".data rest h2
  have e3 : ciIsPrefixOf "action".data (c :: rest) = false :=
    ciIsPrefixOf_false_of_head 'a' c "ction".data rest h3
  unfold kwMatch
  rw [e1, e2, e3]
  rfl

theorem matchAttr_quote_none (t post : List Char) {q : Char} (hq : quoteChar q = true) :
    matchAttr t (q :: post) = none := by
  have k1 : kwMatch (q :: post) = none := by
    rcases quoteChar_eq hq with h1 | h1 <;> subst h1 <;>
      exact kwMatch_none_of_head _ post (by decide) (by decide) (by decide)
  unfold matchAttr
  rw [k1]

theorem replaceScanF_some_head (m : List Char → Option (Nat × List Char))
    (l out : List Char) (n f : Nat) (hne : l ≠ [])
    (hm : m l = some (n + 1, out)) :
    replaceScanF m (f + 1) l = out ++ replaceScanF m f (l.drop (n + 1)) := by
  cases l with
  | nil => exact absurd rfl hne
  | cons c cs =>
    rw [replaceScanF_cons_some m c cs out n f hm]
    rfl

/-- C8 (amended).  Root-relative attribute rewrite: for every `href=`/`src=`/
`action=` attribute whose quoted value starts with `/`, is not already under
`/proxy/`, and — because rule (a) runs first — in a body with no
absolute/scheme-relative internal references, the rewritten attribute value is
exactly `/proxy/<currentTarget>/<originalValueWithLeadingSlashStripped>`. -/
theorem claim_C8_attr_rewrite_amended :
    ∀ (kw val post o t : List Char) (q : Char),
    (kw = "href".data ∨ kw = "src".data ∨ kw = "action".data) →
    quoteChar q = true →
    (∀ c ∈ val, quoteChar c = false) →
    ciIsPrefixOf "proxy/".data val = false →
    (∀ i, i < (kw ++ '=' :: q :: '/' :: (val ++ q :: post)).length →
      matchAbs ((kw ++ '=' :: q :: '/' :: (val ++ q :: post)).drop i) = none) →
    rewriteHtml (kw ++ '=' :: q :: '/' :: (val ++ q :: post)) o t =
      ((kw ++ ['=', q]) ++ "/proxy/".data ++ t ++ ['/'] ++ val) ++ q :: attrPass t post := by
  intro kw val post o t q hkw hq hval hproxy habs
  have hA : replaceScan (absRepl o) (kw ++ '=' :: q :: '/' :: (val ++ q :: post)) =
      kw ++ '=' :: q :: '/' :: (val ++ q :: post) := by
    apply replaceScanF_id
    intro i hi
    rw [absRepl, habs i hi]
    rfl
  unfold rewriteHtml
  rw [hA]
  unfold attrPass replaceScan
  have hm := matchAttr_at kw q val post t hkw hq hval hproxy
  rw [show kw.length + 2 + 1 + val.length = kw.length + 2 + val.length + 1 from by omega] at hm
  have hne : (kw ++ '=' :: q :: '/' :: (val ++ q :: post)) ≠ [] := by
    rcases hkw with h | h | h <;> subst h <;> simp
  have hpos : 0 < (kw ++ '=' :: q :: '/' :: (val ++ q :: post)).length :=
    List.length_pos.mpr hne
  obtain ⟨f, hf⟩ : ∃ f, (kw ++ '=' :: q :: '/' :: (val ++ q :: post)).length = f + 1 :=
    ⟨(kw ++ '=' :: q :: '/' :: (val ++ q :: post)).length - 1, by omega⟩
  rw [hf, replaceScanF_some_head (matchAttr t) _ _ _ f hne hm]
  have hdrop : (kw ++ '=' :: q :: '/' :: (val ++ q :: post)).drop
      (kw.length + 2 + val.length + 1) = q :: post := by
    have hsplit : kw ++ '=' :: q :: '/' :: (val ++ q :: post) =
        (kw ++ '=' :: q :: '/' :: val) ++ q :: post := by simp
    rw [hsplit,
      show kw.length + 2 + val.length + 1 = (kw ++ '=' :: q :: '/' :: val).length from by
        simp only [List.length_append, List.length_cons]
        omega,
      List.drop_left]
  rw [hdrop]
  have hhl : (kw ++ '=' :: q :: '/' :: (val ++ q :: post)).length =
      kw.length + val.length + post.length + 4 := by
    simp only [List.length_append, List.length_cons]
    omega
  have hflen : (q :: post).length ≤ f := by
    simp only [List.length_cons]
    omega
  rw [replaceScanF_stable (matchAttr t) f (q :: post).length (q :: post) hflen (le_refl _),
    List.length_cons, replaceScanF_cons_none _ q post post.length (matchAttr_quote_none t post hq)]

/-- C8 counterexample: the attribute value `//yb-demo-node1:7000/x` starts
with `/` and is not under `/proxy/`, yet it is a scheme-relative internal
address, so rule (a) rewrites it to `<origin>/proxy/...` first and the final
value is not `/proxy/<currentTarget>//yb-demo-node1:7000/x`: the claim fails
as stated. -/
theorem claim_C8_attr_counterexample :
    rewriteHtml ("href=".data ++ dq :: "//yb-demo-node1:7000/x".data ++ [dq])
        "http://localhost:15080".data "yb-demo-node1:7000".data ≠
      "href=".data ++ dq :: "/proxy/".data ++ "yb-demo-node1:7000".data ++
        "//yb-demo-node1:7000/x".data ++ [dq] := by
  decide

/-- C8 witness: a plain root-relative `href` value is rewritten to exactly
`/proxy/<currentTarget>/<value-without-leading-slash>`. -/
theorem claim_C8_attr_rewrite_amended_witness :
    rewriteHtml ("href".data ++ '=' :: dq :: '/' :: ("tables".data ++ dq :: ">x".data))
        "http://localhost:15080".data "yb-demo-node1:7000".data =
      (("href".data ++ ['=', dq]) ++ "/proxy/".data ++ "yb-demo-node1:7000".data ++
        ['/'] ++ "tables".data) ++ dq :: attrPass "yb-demo-node1:7000".data ">x".data :=
  claim_C8_attr_rewrite_amended "href".data "tables".data ">x".data
    "http://localhost:15080".data "yb-demo-node1:7000".data dq
    (Or.inl rfl) (by decide) (by decide) (by decide) (by decide)

/-! ## Location rewriting (C4) -/

theorem prefix_append_drop {p s : List Char} (h : p.isPrefixOf s = true) :
    p ++ s.drop p.length = s := by
  rw [ List.isPrefixOf_iff_prefix] at h
  obtain ⟨t, ht⟩ := h
  rw [← ht, List.drop_left]

theorem schemeOf_append (s : List Char) : schemeOf s ++ s.drop (schemeOf s).length = s := by
  unfold schemeOf
  split
  · exact prefix_append_drop ‹_›
  · split
    · exact prefix_append_drop ‹_›
    · simp

theorem drop_takeWhile_length (p : Char → Bool) (l : List Char) :
    l.drop (l.takeWhile p).length = l.dropWhile p := by
  induction l with
  | nil => rfl
  | cons c cs ih =>
    cases hp : p c with
    | false => simp [List.takeWhile_cons, List.dropWhile_cons, hp]
    | true => simp [List.takeWhile_cons, List.dropWhile_cons, hp, ih]


theorem matchAbs_shape {s sch hp : List Char} (h : matchAbs s = some (sch, hp)) :
    ∃ rest, s = (sch ++ "//".data ++ hp) ++ rest := by
  unfold matchAbs at h
  simp only at h
  generalize hA : s.drop (schemeOf s).length = A at h
  split at h
  case isFalse => exact Option.noConfusion h
  case isTrue h5 =>
    generalize hB : A.drop 5 = B at h
    generalize hw : B.takeWhile isWordChar = w at h
    split at h
    case isFalse => exact Option.noConfusion h
    case isTrue htail =>
      split at h
      case h_2 => exact Option.noConfusion h
      case h_1 c r2 heq =>
        split at h
        case isFalse => exact Option.noConfusion h
        case isTrue hc =>
          subst hc
          generalize hps : r2.takeWhile Char.isDigit = ps at h
          split at h
          case isTrue => exact Option.noConfusion h
          case isFalse hpsne =>
            rw [Option.some.injEq, Prod.mk.injEq] at h
            obtain ⟨hsch, hhp⟩ := h
            subst hsch
            subst hhp
            have e0 : s = schemeOf s ++ A := by
              rw [← hA]
              exact (schemeOf_append s).symm
            have e1 : A = "//yb-".data ++ B := by
              rw [← hB]
              have := prefix_append_drop h5
              simpa using this.symm
            have e2 : B = w ++ ':' :: r2 := by
              rw [← heq, ← hw, drop_takeWhile_length]
              exact (List.takeWhile_append_dropWhile (p := isWordChar) (l := B)).symm
            have e3 : r2 = ps ++ r2.drop ps.length := by
              rw [← hps, drop_takeWhile_length]
              exact (List.takeWhile_append_dropWhile (p := Char.isDigit) (l := r2)).symm
            refine ⟨r2.drop ps.length, ?_⟩
            conv_lhs => rw [e0, e1, e2, e3]
            simp [List.append_assoc]

/-- C4 counterexample: a `Location` already under `/proxy/` does *not* pass
through unchanged — it is root-relative, so the code prefixes it again. -/
theorem claim_C4_location_counterexample :
    rewriteLocation "/proxy/yb-demo-node1:9000/".data "http://localhost:15080".data
        "yb-demo-node1:7000".data ≠ "/proxy/yb-demo-node1:9000/".data := by
  decide

/-- C4 (amended).  `Location` rewriting: an absolute or scheme-relative
internal address matching the cluster naming convention is rewritten to
`<origin>/proxy/<host:port><rest>`; otherwise every root-relative location —
including one already under `/proxy/` — is rewritten to
`/proxy/<currentTarget><location>`; only a value that neither matches the
internal pattern nor starts with `/` passes through unchanged. -/
theorem claim_C4_location_rewrite_amended : ∀ (loc o t : List Char),
    (∀ sch hp, matchAbs loc = some (sch, hp) →
      rewriteLocation loc o t =
        o ++ "/proxy/".data ++ hp ++ loc.drop (sch.length + 2 + hp.length)) ∧
    (matchAbs loc = none → "/".data.isPrefixOf loc = true →
      rewriteLocation loc o t = "/proxy/".data ++ t ++ loc) ∧
    (matchAbs loc = none → "/".data.isPrefixOf loc = false →
      rewriteLocation loc o t = loc) := by
  intro loc o t
  refine ⟨?_, ?_, ?_⟩
  · intro sch hp hm
    obtain ⟨rest, hrest⟩ := matchAbs_shape hm
    have hlen : sch.length + 2 + hp.length = (sch ++ "//".data ++ hp).length := by
      simp [List.length_append]
      omega
    have hdrop : loc.drop (sch.length + 2 + hp.length) = rest := by
      conv_lhs => rw [hrest, hlen]
      rw [List.drop_left]
    have hne : o ++ "/proxy/".data ++ hp ++ loc.drop (sch.length + 2 + hp.length) ≠ loc := by
      rw [hdrop]
      conv_rhs => rw [hrest]
      intro heq
      have heq2 : (o ++ "/proxy/".data) ++ (hp ++ rest) =
          (sch ++ "//".data) ++ (hp ++ rest) := by
        simpa [List.append_assoc] using heq
      have heq3 : o ++ "/proxy/".data = sch ++ "//".data :=
        List.append_cancel_right heq2
      have h5 := congrArg List.reverse heq3
      simp [List.reverse_append] at h5
    unfold rewriteLocation
    rw [hm]
    dsimp only
    rw [if_pos hne]
  · intro hm hpre
    unfold rewriteLocation
    rw [hm]
    dsimp only
    rw [if_neg (fun hh => hh rfl), hpre]
    rw [if_pos rfl]
  · intro hm hpre
    unfold rewriteLocation
    rw [hm]
    dsimp only
    rw [if_neg (fun hh => hh rfl), hpre]
    rfl

/-- C4 witness: Scenario E — `Location: http://yb-demo-node1:7000/login` on a
3xx response is rewritten to `<origin>/proxy/yb-demo-node1:7000/login`. -/
theorem claim_C4_location_rewrite_amended_witness :
    rewriteLocation "http://yb-demo-node1:7000/login".data "http://localhost:15080".data
        "yb-demo-node1:7000".data =
      "http://localhost:15080".data ++ "/proxy/".data ++ "yb-demo-node1:7000".data ++
        "http://yb-demo-node1:7000/login".data.drop
          ("http:".data.length + 2 + "yb-demo-node1:7000".data.length) :=
  (claim_C4_location_rewrite_amended _ _ _).1 "http:".data "yb-demo-node1:7000".data
    (by decide)

/-! ## Container-lookup cache (C2, C9) -/

theorem lookupKey_setKey_self {α : Type} (k : List Char) (v : α)
    (l : List (List Char × α)) : lookupKey k (setKey k v l) = some v := by
  simp [setKey, lookupKey]

theorem lookupKey_eraseKey_self {α : Type} (k : List Char) (l : List (List Char × α)) :
    lookupKey k (eraseKey k l) = none := by
  induction l with
  | nil => rfl
  | cons p t ih =>
    obtain ⟨k', v⟩ := p
    by_cases hk : k' = k
    · subst hk
      simpa [eraseKey] using ih
    · simpa [eraseKey, lookupKey, hk] using ih

theorem not_mem_filter_ne_self (k : List Char) (l : List (List Char)) :
    k ∉ l.filter (fun x => !(x = k : Bool)) := by
  simp [List.mem_filter]

theorem lookupStart_newQuery_state {st : CacheState} {k : List Char} {t : Nat}
    (h : (lookupStart st k t).2 = LookupOutcome.newQuery) :
    (lookupStart st k t).1 = ⟨eraseKey k st.cache, k :: st.inflight, st.queries + 1⟩ := by
  cases hlk : lookupKey k st.cache with
  | none =>
    simp only [lookupStart, hlk] at h ⊢
    split at h
    · simp at h
    · rename_i hmem
      rw [if_neg hmem]
  | some p =>
    obtain ⟨v, expiry⟩ := p
    simp only [lookupStart, hlk] at h ⊢
    split at h
    · simp at h
    · rename_i hexp
      rw [if_neg hexp]
      split at h
      · simp at h
      · rename_i hmem
        rw [if_neg hmem]

theorem lookupStart_hit_of_cache {st : CacheState} {k : List Char} {t : Nat}
    {v : Option (List Char)} {exp : Nat}
    (hlk : lookupKey k st.cache = some (v, exp)) (ht : t < exp) :
    lookupStart st k t = (st, .hit v) := by
  unfold lookupStart
  rw [hlk]
  dsimp only
  rw [if_pos ht]

theorem lookupStart_expired_notInflight {st : CacheState} {k : List Char} {t : Nat}
    {v : Option (List Char)} {exp : Nat}
    (hlk : lookupKey k st.cache = some (v, exp)) (ht : ¬ t < exp)
    (hmem : k ∉ st.inflight) :
    lookupStart st k t =
      (⟨eraseKey k st.cache, k :: st.inflight, st.queries + 1⟩, .newQuery) := by
  unfold lookupStart
  rw [hlk]
  dsimp only
  rw [if_neg ht, if_neg hmem]

theorem lookupComplete_cache {st : CacheState} {k : List Char} {e : Bool}
    {out : List Char} {tq : Nat} :
    ((lookupComplete st k e out tq).1).cache =
      setKey k ((lookupComplete st k e out tq).2, tq + CACHE_TTL_MS) st.cache := rfl

theorem lookupComplete_inflight {st : CacheState} {k : List Char} {e : Bool}
    {out : List Char} {tq : Nat} :
    ((lookupComplete st k e out tq).1).inflight =
      st.inflight.filter (fun x => !(x = k : Bool)) := rfl

theorem lookupComplete_queries {st : CacheState} {k : List Char} {e : Bool}
    {out : List Char} {tq : Nat} :
    ((lookupComplete st k e out tq).1).queries = st.queries := rfl

/-- C2.  Single-flight resolution per key: (1) after a resolution that issued
a runtime query, a second resolution of the same key while the first is still
in flight joins it and issues no new query; (2) a resolution within the TTL
window after the query completed is a pure cache hit of the completed result
(no state change, no query); (3) a resolution at or after the TTL expiry
issues exactly one new query. -/
theorem claim_C2_single_flight :
    ∀ (st : CacheState) (k : List Char) (t1 t2 t3 t4 tq : Nat) (e : Bool)
      (out : List Char),
    ((lookupStart st k t1).2 = LookupOutcome.newQuery →
      (lookupStart (lookupStart st k t1).1 k t2).2 = LookupOutcome.joined ∧
        ((lookupStart (lookupStart st k t1).1 k t2).1).queries =
          ((lookupStart st k t1).1).queries) ∧
    (t3 < tq + CACHE_TTL_MS →
      lookupStart (lookupComplete st k e out tq).1 k t3 =
        ((lookupComplete st k e out tq).1,
          LookupOutcome.hit (lookupComplete st k e out tq).2)) ∧
    (tq + CACHE_TTL_MS ≤ t4 →
      (lookupStart (lookupComplete st k e out tq).1 k t4).2 = LookupOutcome.newQuery ∧
        ((lookupStart (lookupComplete st k e out tq).1 k t4).1).queries =
          st.queries + 1) := by
  intro st k t1 t2 t3 t4 tq e out
  refine ⟨?_, ?_, ?_⟩
  · intro h
    rw [lookupStart_newQuery_state h]
    unfold lookupStart
    rw [lookupKey_eraseKey_self]
    dsimp only
    rw [if_pos (List.mem_cons_self k st.inflight)]
    exact ⟨rfl, rfl⟩
  · intro ht
    have hlk : lookupKey k ((lookupComplete st k e out tq).1).cache =
        some ((lookupComplete st k e out tq).2, tq + CACHE_TTL_MS) := by
      rw [lookupComplete_cache]
      exact lookupKey_setKey_self ..
    exact lookupStart_hit_of_cache hlk ht
  · intro ht
    have hlk : lookupKey k ((lookupComplete st k e out tq).1).cache =
        some ((lookupComplete st k e out tq).2, tq + CACHE_TTL_MS) := by
      rw [lookupComplete_cache]
      exact lookupKey_setKey_self ..
    have hmem : k ∉ ((lookupComplete st k e out tq).1).inflight := by
      rw [lookupComplete_inflight]
      exact not_mem_filter_ne_self k st.inflight
    rw [lookupStart_expired_notInflight hlk (by omega) hmem]
    exact ⟨rfl, by rw [lookupComplete_queries]⟩

/-- C2 witness: from the empty state, a first resolution issues a query, a
concurrent second one joins it; after completion, a hit within the TTL and a
fresh query after expiry. -/
theorem claim_C2_single_flight_witness :
    ((lookupStart ⟨[], [], 0⟩ "cluster:demo".data 0).2 = LookupOutcome.newQuery ∧
      (lookupStart (lookupStart ⟨[], [], 0⟩ "cluster:demo".data 0).1
          "cluster:demo".data 5).2 = LookupOutcome.joined) ∧
    lookupStart (lookupComplete ⟨[], [], 0⟩ "cluster:demo".data false
          "yb-demo-node1\n".data 100).1 "cluster:demo".data 5000 =
        ((lookupComplete ⟨[], [], 0⟩ "cluster:demo".data false
          "yb-demo-node1\n".data 100).1,
          LookupOutcome.hit (lookupComplete ⟨[], [], 0⟩ "cluster:demo".data false
            "yb-demo-node1\n".data 100).2) ∧
    (lookupStart (lookupComplete ⟨[], [], 0⟩ "cluster:demo".data false
          "yb-demo-node1\n".data 100).1 "cluster:demo".data 10100).2 =
        LookupOutcome.newQuery := by
  refine ⟨⟨by decide, ?_⟩, ?_, ?_⟩
  · exact ((claim_C2_single_flight ⟨[], [], 0⟩ "cluster:demo".data 0 5 0 0 0 false
      []).1 (by decide)).1
  · exact (claim_C2_single_flight ⟨[], [], 0⟩ "cluster:demo".data 0 0 5000 0 100 false
      "yb-demo-node1\n".data).2.1 (by decide)
  · exact ((claim_C2_single_flight ⟨[], [], 0⟩ "cluster:demo".data 0 0 0 10100 100 false
      "yb-demo-node1\n".data).2.2 (by decide)).1

/-- C9 counterexample: the `exec` callback ignores the error argument — an
errored runtime query whose stdout still contains a container name resolves to
that name (a "found" result), not to "not found", refuting the claim that
every errored query yields an absent result. -/
theorem claim_C9_error_counterexample :
    (lookupComplete ⟨[], [], 0⟩ "cluster:demo".data true "yb-demo-node1\n".data 0).2 ≠
        none ∧
      (lookupComplete ⟨[], [], 0⟩ "cluster:demo".data true "yb-demo-node1\n".data 0).2 =
        some "yb-demo-node1".data := by
  constructor <;> decide

/-- C9 (amended).  Fail-safe negative caching: the resolver's result is
determined solely by the query's trimmed stdout (the error flag is ignored);
whatever the result, it is cached with the same fixed TTL; a query producing
no non-whitespace output — the typical errored or no-match query — yields
"not found", and subsequent resolutions of the key within the TTL return that
cached "not found" without issuing another runtime query. -/
theorem claim_C9_negative_caching_amended :
    ∀ (st : CacheState) (k : List Char) (e e' : Bool) (out : List Char) (tq : Nat),
    (lookupKey k ((lookupComplete st k e out tq).1).cache =
      some ((lookupComplete st k e out tq).2, tq + CACHE_TTL_MS)) ∧
    ((lookupComplete st k e out tq).2 = (lookupComplete st k e' out tq).2) ∧
    (trimJS out = [] → (lookupComplete st k e out tq).2 = none) ∧
    (trimJS out = [] → ∀ t', t' < tq + CACHE_TTL_MS →
      lookupStart (lookupComplete st k e out tq).1 k t' =
        ((lookupComplete st k e out tq).1, LookupOutcome.hit none)) := by
  intro st k e e' out tq
  have hres : ∀ b : Bool, (lookupComplete st k b out tq).2 =
      if trimJS out = [] then none else some (trimJS out) := fun _ => rfl
  refine ⟨?_, ?_, ?_, ?_⟩
  · rw [lookupComplete_cache]
    exact lookupKey_setKey_self ..
  · rw [hres e, hres e']
  · intro htrim
    rw [hres e, if_pos htrim]
  · intro htrim t' ht
    have hlk : lookupKey k ((lookupComplete st k e out tq).1).cache =
        some ((lookupComplete st k e out tq).2, tq + CACHE_TTL_MS) := by
      rw [lookupComplete_cache]
      exact lookupKey_setKey_self ..
    rw [hres e, if_pos htrim] at hlk
    have := lookupStart_hit_of_cache hlk ht
    rw [this]

/-- C9 witness: an errored query with empty output caches "not found" for the
TTL; a resolution 5 s later hits that cached absence without a new query. -/
theorem claim_C9_negative_caching_amended_witness :
    trimJS "".data = [] ∧
    (lookupComplete ⟨[], [], 0⟩ "any-yb".data true "".data 0).2 = none ∧
    lookupStart (lookupComplete ⟨[], [], 0⟩ "any-yb".data true "".data 0).1
        "any-yb".data 5000 =
      ((lookupComplete ⟨[], [], 0⟩ "any-yb".data true "".data 0).1,
        LookupOutcome.hit none) := by
  refine ⟨by decide, ?_, ?_⟩
  · exact (claim_C9_negative_caching_amended ⟨[], [], 0⟩ "any-yb".data true true
      "".data 0).2.2.1 (by decide)
  · exact (claim_C9_negative_caching_amended ⟨[], [], 0⟩ "any-yb".data true true
      "".data 0).2.2.2 (by decide) 5000 (by decide)

/-! ## Request routing and the upstream command (C10) -/

theorem routeRequest_proxyFetch_iff (req : HttpRequest) (h p pq : List Char) :
    routeRequest req = .proxyFetch h p pq ↔
      req.method ≠ "OPTIONS" ∧
      ((if req.url = "" then "/" else req.url) ≠ "/favicon.ico" ∧
        (if req.url = "" then "/" else req.url) ≠ "/favicon.svg") ∧
      parseProxyPath (if req.url = "" then "/" else req.url).data = some (h, p, pq) := by
  unfold routeRequest
  by_cases hm : req.method = "OPTIONS"
  · simp [hm]
  · rw [if_neg hm]
    dsimp only
    by_cases hfav : (if req.url = "" then "/" else req.url) = "/favicon.ico" ∨
        (if req.url = "" then "/" else req.url) = "/favicon.svg"
    · rw [if_pos hfav]
      rcases hfav with h1 | h1 <;> simp [hm, h1]
    · rw [if_neg hfav]
      rw [not_or] at hfav
      cases hpp : parseProxyPath (if req.url = "" then "/" else req.url).data with
      | none => simp [hm, hpp, hfav]
      | some trip =>
        obtain ⟨h', p', pq'⟩ := trip
        simp only [hpp, RouteAction.proxyFetch.injEq, Option.some.injEq, Prod.mk.injEq,
          ne_eq, hm, not_false_iff, true_and, hfav, and_true]

/-- C10.  For every request that reaches the fetch stage, the command executed
inside the container is exactly the fixed `docker exec <container> curl` GET
template applied to the internal URL built from the request *path* alone
(curl with no method flag and no body performs a GET); the inbound request's
method and body never influence the command — any non-`OPTIONS` method with
any body produces the identical command. -/
theorem claim_C10_upstream_always_get :
    ∀ (req : HttpRequest) (container cmd : List Char),
    upstreamCommand req container = some cmd →
    (∃ h p pq,
      parseProxyPath (if req.url = "" then "/" else req.url).data = some (h, p, pq) ∧
      cmd = "docker exec ".data ++ container ++
        " curl -sS -i --connect-timeout 5 --max-time 30 ".data ++
        [sqc] ++ shellEscape ("http://".data ++ h ++ [':'] ++ p ++ pq) ++ [sqc]) ∧
    (∀ (m b : String), m ≠ "OPTIONS" →
      upstreamCommand ⟨m, req.url, b⟩ container = some cmd) := by
  intro req container cmd hcmd
  unfold upstreamCommand at hcmd
  cases hroute : routeRequest req with
  | options204 => rw [hroute] at hcmd; exact Option.noConfusion hcmd
  | favicon => rw [hroute] at hcmd; exact Option.noConfusion hcmd
  | landing => rw [hroute] at hcmd; exact Option.noConfusion hcmd
  | proxyFetch h p pq =>
    rw [hroute] at hcmd
    dsimp only at hcmd
    rw [Option.some.injEq] at hcmd
    obtain ⟨hm, hfav, hpp⟩ := (routeRequest_proxyFetch_iff req h p pq).mp hroute
    constructor
    · exact ⟨h, p, pq, hpp, hcmd.symm⟩
    · intro m b hm'
      have hroute' : routeRequest ⟨m, req.url, b⟩ = .proxyFetch h p pq :=
        (routeRequest_proxyFetch_iff ⟨m, req.url, b⟩ h p pq).mpr ⟨hm', hfav, hpp⟩
      unfold upstreamCommand
      rw [hroute']
      dsimp only
      rw [hcmd]

/-- C10 witness: a `POST` with a body to `/proxy/yb-demo-node1:7000/login`
produces the same GET command as a `GET` with no body. -/
theorem claim_C10_upstream_always_get_witness :
    upstreamCommand ⟨"POST", "/proxy/yb-demo-node1:7000/login", "a=1"⟩
        "yb-demo-node1".data =
      upstreamCommand ⟨"GET", "/proxy/yb-demo-node1:7000/login", ""⟩
        "yb-demo-node1".data := by
  have h1 := claim_C10_upstream_always_get
    ⟨"POST", "/proxy/yb-demo-node1:7000/login", "a=1"⟩ "yb-demo-node1".data
    (upstreamCommand ⟨"POST", "/proxy/yb-demo-node1:7000/login", "a=1"⟩
      "yb-demo-node1".data).get!
    (by decide)
  rw [(h1.2 "GET" "" (by decide) : _)]
  decide

/-! ## Exactly-once response write (C1) -/

/-- The per-request safety invariant: at most one final write has happened,
the response is ended exactly when that write happened, and a disarmed timer
(cleared or fired) means the final write has been issued. -/
def pInv (s : PState) : Prop :=
  s.writes ≤ 1 ∧ (s.resDone = true ↔ s.writes = 1) ∧ (s.timer = false → s.writes = 1)

theorem pStep_inv : ∀ (s : PState) (e : PEvent), pInv s → pInv (pStep s e) := by
  rintro ⟨rd, tm, rp, fp, w⟩ e ⟨h1, h2, h3⟩
  cases e with
  | fire =>
    cases rd <;> cases tm <;> simp_all [pStep, pInv, doSafeEnd] <;> omega
  | resolve c =>
    cases rd <;> cases tm <;> cases rp <;> cases c <;>
      simp_all [pStep, pInv, doSafeEnd] <;> omega
  | fetchDone b =>
    cases rd <;> cases tm <;> cases fp <;> simp_all [pStep, pInv, doSafeEnd] <;> omega

theorem pFoldl_inv : ∀ (evs : List PEvent) (s : PState), pInv s →
    pInv (evs.foldl pStep s) := by
  intro evs
  induction evs with
  | nil => exact fun s h => h
  | cons e t ih => exact fun s h => ih _ (pStep_inv s e h)

theorem pStep_writes_mono (s : PState) (e : PEvent) : s.writes ≤ (pStep s e).writes := by
  obtain ⟨rd, tm, rp, fp, w⟩ := s
  cases e with
  | fire => cases rd <;> cases tm <;> simp [pStep, doSafeEnd]
  | resolve c => cases rd <;> cases tm <;> cases rp <;> cases c <;> simp [pStep, doSafeEnd]
  | fetchDone b => cases rd <;> cases tm <;> cases fp <;> simp [pStep, doSafeEnd]

theorem pFoldl_writes_mono : ∀ (evs : List PEvent) (s : PState),
    s.writes ≤ (evs.foldl pStep s).writes := by
  intro evs
  induction evs with
  | nil => exact fun s => le_refl _
  | cons e t ih =>
    intro s
    exact le_trans (pStep_writes_mono s e) (ih (pStep s e))

/-- C1.  Exactly-once response write: along every interleaving of the timeout
expiry, the container-resolution completion and the fetch completion, at most
one final write is ever issued; the response is ended exactly when that write
happened; once the timer has been disarmed (fired or cleared by a completion)
the final write has been issued exactly once; and after the response has
ended, no continuation of the run performs any further write.  (The
`.catch` error handler of `handleProxy` is unreachable: the lookup promise
only ever resolves, so it has no event in the model.) -/
theorem claim_C1_response_written_exactly_once : ∀ evs : List PEvent,
    (pRun evs).writes ≤ 1 ∧
    ((pRun evs).resDone = true ↔ (pRun evs).writes = 1) ∧
    ((pRun evs).timer = false → (pRun evs).writes = 1) ∧
    (∀ more, (pRun evs).resDone = true →
      (pRun (evs ++ more)).writes = (pRun evs).writes) := by
  intro evs
  have hinit : pInv pInit := by
    refine ⟨by decide, by decide, by decide⟩
  have hinv : pInv (pRun evs) := pFoldl_inv evs pInit hinit
  refine ⟨hinv.1, hinv.2.1, hinv.2.2, ?_⟩
  intro more hrd
  have h1 : (pRun evs).writes = 1 := hinv.2.1.mp hrd
  have hrun : pRun (evs ++ more) = more.foldl pStep (pRun evs) := by
    unfold pRun
    rw [List.foldl_append]
  have hinv2 : pInv (pRun (evs ++ more)) := pFoldl_inv _ pInit hinit
  have hmono : (pRun evs).writes ≤ (pRun (evs ++ more)).writes := by
    rw [hrun]
    exact pFoldl_writes_mono more (pRun evs)
  have := hinv2.1
  omega

/-- C1 witness: a resolution followed by a successful fetch ends the response
with one write; a late timer expiry (and any further events) write nothing. -/
theorem claim_C1_response_written_exactly_once_witness :
    (pRun [PEvent.resolve (some "yb-demo-node1".data), PEvent.fetchDone false]).resDone =
        true ∧
      (pRun ([PEvent.resolve (some "yb-demo-node1".data), PEvent.fetchDone false] ++
          [PEvent.fire])).writes =
        (pRun [PEvent.resolve (some "yb-demo-node1".data), PEvent.fetchDone false]).writes :=
  ⟨by decide,
    (claim_C1_response_written_exactly_once
      [PEvent.resolve (some "yb-demo-node1".data), PEvent.fetchDone false]).2.2.2
      [PEvent.fire] (by decide)⟩
